import Mathlib

/-!
# Bluetooth HCI core helpers (`net/bluetooth/hci_core.h`)

A shallow embedding of the inline helpers and macros of `hci_core.h`:
the LE connection-parameter validator, the LMP feature predicates, the LE
address classifiers and the address compare and copy helpers, together with
theorems about them.

Conventions of the embedding.

* A `uint8_t` / `uint16_t` value is a `Nat`; an array `uint8_t x[n]` is a
  function `Fin n → Nat`.
* C integer promotion is made explicit: operands of `*`, `/`, `-` are taken
  to `Int`, the quotient is the truncating `Int.tdiv`, and a store to a
  `uint16_t` variable reduces modulo `2 ^ 16`.
* A C `bool` result is a Lean `Bool`; a C `int` used as a truth value is kept
  as a number and tested against `0`.
* An object passed to `memcmp` / `memcpy` is its sequence of bytes; the
  address structures have only `uint8_t` members, hence no padding.
-/

namespace HciCore

/-! ## LL connection parameters -/

/-- Default minimum connection interval, `#define LE_CONN_MIN_INTERVAL 0x0028`. -/
def LE_CONN_MIN_INTERVAL : Nat := 0x0028

/-- Default maximum connection interval, `#define LE_CONN_MAX_INTERVAL 0x0038`. -/
def LE_CONN_MAX_INTERVAL : Nat := 0x0038

/-- Default slave latency, `#define LE_CONN_LATENCY 0x0000`. -/
def LE_CONN_LATENCY : Nat := 0x0000

/-- Default supervision timeout, `#define LE_CONN_TIMEOUT 0x002a`. -/
def LE_CONN_TIMEOUT : Nat := 0x002a

/-- Conversion of a (promoted) `int` value to `uint16_t`: reduction modulo `2 ^ 16`. -/
def to_uint16 (x : Int) : Nat := (x % 65536).toNat

/-- The value stored in the local `uint16_t max_latency` of
`bt_le_conn_params_valid`: `max_latency = (timeout * 4 / max) - 1;`
evaluated in `int` and then converted to `uint16_t`. -/
def max_latency_of (max timeout : Nat) : Nat :=
  to_uint16 (Int.tdiv ((timeout : Int) * 4) (max : Int) - 1)

/-- The validator `bt_le_conn_params_valid(min, max, latency, timeout)`,
statement by statement. -/
def bt_le_conn_params_valid (min max latency timeout : Nat) : Bool :=
  if min > max || min < 6 || max > 3200 then
    false
  else if timeout < 10 || timeout > 3200 then
    false
  else
    let max_latency := max_latency_of max timeout
    if latency > 499 || latency > max_latency then
      false
    else
      true

/-- The acceptance rule as the specification words it: none of the reject
rules fires, with `max_latency = (timeout * 4 / max_interval) - 1` computed
over the integers (truncating division, no reduction modulo `2 ^ 16`). -/
def validate_rule (min max latency timeout : Nat) : Bool :=
  decide (min ≤ max) && decide (6 ≤ min) && decide (max ≤ 3200) &&
  decide (10 ≤ timeout) && decide (timeout ≤ 3200) &&
  decide (latency ≤ 499) &&
  decide ((latency : Int) ≤ Int.tdiv ((timeout : Int) * 4) (max : Int) - 1)

/-! ## LMP feature helpers -/

/-- Modelled from the spec: the six-byte device address `bt_addr_t`, whose
declaration lives in a header outside this file ("fixed 6-byte values"). -/
structure bt_addr_t where
  val : Fin 6 → Nat

/-- State tracking for the local Bluetooth controller, `struct bt_dev`.
The data fields are kept in declaration order; the semaphores, queues and the
`sent_cmd` / `drv` pointers carry no value the helpers below read and are
left out. -/
structure bt_dev where
  bdaddr : bt_addr_t
  hci_version : Nat
  hci_revision : Nat
  manufacturer : Nat
  features : Fin 8 → Nat
  le_features : Fin 8 → Nat
  flags : Nat
  le_pkts : Nat
  le_mtu : Nat
  ncmd : Nat

/-- Modelled from the spec: the mask `BT_LMP_NO_BREDR`, defined in a header
outside this file. The spec places the "no BR/EDR" flag at bit 2 of byte 4 of
the BR/EDR feature bitmap, i.e. mask `0x04`. -/
def BT_LMP_NO_BREDR : Nat := 0x04

/-- Modelled from the spec: the mask `BT_LMP_LE`, defined in a header outside
this file. The spec places the LE flag at bit 6 of byte 4 of the BR/EDR
feature bitmap, i.e. mask `0x40`. -/
def BT_LMP_LE : Nat := 0x40

/-- The macro `lmp_bredr_capable(dev)`,
`(!((dev).features[4] & BT_LMP_NO_BREDR))`. -/
def lmp_bredr_capable (dev : bt_dev) : Bool :=
  !(decide ((dev.features 4 &&& BT_LMP_NO_BREDR) ≠ 0))

/-- The macro `lmp_le_capable(dev)`, `((dev).features[4] & BT_LMP_LE)`:
an integer, used as a truth value by its callers. -/
def lmp_le_capable (dev : bt_dev) : Nat :=
  dev.features 4 &&& BT_LMP_LE

/-! ## LE address helpers -/

/-- Modelled from the spec: the LE address `bt_addr_le_t`, whose declaration
lives in a header outside this file: "fixed 6-byte values plus a 1-byte type
discriminator". The helpers read the fields `type` and `val[5]`. -/
structure bt_addr_le_t where
  type : Nat
  val : Fin 6 → Nat

/-- The helper `bt_addr_le_is_rpa(addr)`. The type code `BT_ADDR_LE_RANDOM`
is defined outside this file and is a parameter. -/
def bt_addr_le_is_rpa (BT_ADDR_LE_RANDOM : Nat) (addr : bt_addr_le_t) : Bool :=
  if addr.type ≠ BT_ADDR_LE_RANDOM then
    false
  else if (addr.val 5 &&& 0xc0) = 0x40 then
    true
  else
    false

/-- The helper `bt_addr_le_is_identity(addr)`. The type code
`BT_ADDR_LE_PUBLIC` is defined outside this file and is a parameter. -/
def bt_addr_le_is_identity (BT_ADDR_LE_PUBLIC : Nat) (addr : bt_addr_le_t) : Bool :=
  if addr.type = BT_ADDR_LE_PUBLIC then
    true
  else if (addr.val 5 &&& 0xc0) = 0xc0 then
    true
  else
    false

/-! ## The validator's arithmetic, step by step -/

/-- The `int`-typed value of the expression `(timeout * 4 / max) - 1` of
`bt_le_conn_params_valid`, before it is stored in the `uint16_t` variable. -/
def max_latency_int (max timeout : Nat) : Int :=
  Int.tdiv ((timeout : Int) * 4) (max : Int) - 1

/-- The formula quoted in the comment of `bt_le_conn_params_valid`,
`max_latency = ((timeout * 10)/(max * 1.25 * 2)) - 1`, over the rationals. -/
def max_latency_exact (max timeout : Nat) : ℚ :=
  ((timeout : ℚ) * 10) / ((max : ℚ) * 1.25 * 2) - 1

/-- The operands `(timeout * 4, max)` of the division in
`bt_le_conn_params_valid` when control reaches that statement, and `none`
when one of the two earlier `return false` statements is taken. -/
def division_operands (min max timeout : Nat) : Option (Nat × Nat) :=
  if min > max || min < 6 || max > 3200 then
    none
  else if timeout < 10 || timeout > 3200 then
    none
  else
    some (timeout * 4, max)

/-- The validator `bt_le_conn_params_valid` with the undefined behaviours of C
made explicit: the result is `none` when the product `timeout * 4` does not
fit in 16 bits or when the divisor `max` is zero, and `some` of the returned
Boolean otherwise. -/
def bt_le_conn_params_valid_checked (min max latency timeout : Nat) : Option Bool :=
  if min > max || min < 6 || max > 3200 then
    some false
  else if timeout < 10 || timeout > 3200 then
    some false
  else if timeout * 4 ≥ 65536 then
    none
  else if max = 0 then
    none
  else
    let max_latency := max_latency_of max timeout
    if latency > 499 || latency > max_latency then
      some false
    else
      some true

/-! ## Address comparison and copy -/

/-- The C library function `memcmp(a, b, n)` on two byte sequences: the first
`n` bytes are compared in order, the result is zero when they all agree and
otherwise the difference of the first pair of bytes that differ. -/
def memcmp : List Nat → List Nat → Nat → Int
  | _, _, 0 => 0
  | a :: as, b :: bs, n + 1 =>
    if a ≠ b then (a : Int) - (b : Int) else memcmp as bs n
  | _, _, _ + 1 => 0

/-- The C library function `memcpy(dst, src, n)` on two disjoint byte
sequences: the contents of `dst` after the call, its first `n` bytes replaced
by the first `n` bytes of `src`. -/
def memcpy (dst src : List Nat) (n : Nat) : List Nat :=
  src.take n ++ dst.drop n

/-- The object representation of a `bt_addr_t`: its six value bytes in index
order, `sizeof(bt_addr_t) = 6`. -/
def bt_addr_bytes (a : bt_addr_t) : List Nat :=
  [a.val 0, a.val 1, a.val 2, a.val 3, a.val 4, a.val 5]

/-- The `bt_addr_t` held by a sequence of bytes. -/
def bt_addr_of_bytes (m : List Nat) : bt_addr_t :=
  { val := fun i => m.getD i.val 0 }

/-- The object representation of a `bt_addr_le_t`: the type byte followed by
the six value bytes in index order, `sizeof(bt_addr_le_t) = 7`. -/
def bt_addr_le_bytes (a : bt_addr_le_t) : List Nat :=
  [a.type, a.val 0, a.val 1, a.val 2, a.val 3, a.val 4, a.val 5]

/-- The `bt_addr_le_t` held by a sequence of bytes. -/
def bt_addr_le_of_bytes (m : List Nat) : bt_addr_le_t :=
  { type := m.getD 0 0, val := fun i => m.getD (i.val + 1) 0 }

/-- The helper `bt_addr_cmp(a, b)`, `memcmp(a, b, sizeof(*a))`. -/
def bt_addr_cmp (a b : bt_addr_t) : Int :=
  memcmp (bt_addr_bytes a) (bt_addr_bytes b) 6

/-- The helper `bt_addr_le_cmp(a, b)`, `memcmp(a, b, sizeof(*a))`. -/
def bt_addr_le_cmp (a b : bt_addr_le_t) : Int :=
  memcmp (bt_addr_le_bytes a) (bt_addr_le_bytes b) 7

/-- The helper `bt_addr_copy(dst, src)`, `memcpy(dst, src, sizeof(*dst))`:
the pair of the objects `*dst` and `*src` after the call. -/
def bt_addr_copy (dst src : bt_addr_t) : bt_addr_t × bt_addr_t :=
  (bt_addr_of_bytes (memcpy (bt_addr_bytes dst) (bt_addr_bytes src) 6), src)

/-- The helper `bt_addr_le_copy(dst, src)`, `memcpy(dst, src, sizeof(*dst))`:
the pair of the objects `*dst` and `*src` after the call. -/
def bt_addr_le_copy (dst src : bt_addr_le_t) : bt_addr_le_t × bt_addr_le_t :=
  (bt_addr_le_of_bytes (memcpy (bt_addr_le_bytes dst) (bt_addr_le_bytes src) 7), src)

/-! ## Concrete states used as witnesses -/

/-- A device state whose feature bytes are all `b`. -/
def dev_with_features (b : Nat) : bt_dev :=
  { bdaddr := ⟨fun _ => 0⟩, hci_version := 0, hci_revision := 0,
    manufacturer := 0, features := fun _ => b, le_features := fun _ => 0,
    flags := 0, le_pkts := 0, le_mtu := 0, ncmd := 0 }

/-- An LE address of type `t` whose value bytes are all `b`. -/
def addr_le_const (t b : Nat) : bt_addr_le_t :=
  { type := t, val := fun _ => b }

/-- A device address whose value bytes are all `b`. -/
def addr_const (b : Nat) : bt_addr_t :=
  { val := fun _ => b }

/-! ## Auxiliary lemmas -/

/-- Masking with `0x04` isolates bit 2. -/
theorem and_4_eq_zero_iff (x : Nat) : (x &&& 0x04) = 0 ↔ x.testBit 2 = false := by
  have h : x &&& 4 = (x.testBit 2).toNat * 4 := by
    simpa using Nat.and_two_pow x 2
  cases hb : x.testBit 2 <;> simp [h, hb]

/-- Masking with `0x40` isolates bit 6. -/
theorem and_64_ne_zero_iff (x : Nat) : (x &&& 0x40) ≠ 0 ↔ x.testBit 6 = true := by
  have h : x &&& 64 = (x.testBit 6).toNat * 64 := by
    simpa using Nat.and_two_pow x 6
  cases hb : x.testBit 6 <;> simp [h, hb]

/-! ## The LE parameter validator -/

/-- C1: at `(min, max, latency, timeout) = (3200, 3200, 499, 799)` the
validator returns `true`, while the acceptance rule with `max_latency`
computed over the integers (here `3196 / 3200 - 1 = -1`) rejects the tuple:
the store to the `uint16_t` variable turns `-1` into `65535`, so the
comparison `latency > max_latency` can no longer fire. -/
theorem conn_params_valid_differs_from_rule :
    Int.tdiv ((799 : Int) * 4) 3200 - 1 = -1 ∧
    max_latency_of 3200 799 = 65535 ∧
    bt_le_conn_params_valid 3200 3200 499 799 = true ∧
    validate_rule 3200 3200 499 799 = false := by
  refine ⟨by decide, by decide, by decide, by decide⟩

/-- C2: the boundary-minimum tuple `(6, 3200, 0, 10)` is accepted. -/
theorem conn_params_boundary_minimums_accepted :
    bt_le_conn_params_valid 6 3200 0 10 = true := by
  decide

/-- C3: the default LE connection parameters of the header,
`(0x0028, 0x0038, 0, 0x002a)`, are accepted. -/
theorem conn_params_defaults_accepted :
    bt_le_conn_params_valid LE_CONN_MIN_INTERVAL LE_CONN_MAX_INTERVAL
        LE_CONN_LATENCY LE_CONN_TIMEOUT = true ∧
    LE_CONN_MIN_INTERVAL = 0x0028 ∧ LE_CONN_MAX_INTERVAL = 0x0038 ∧
    LE_CONN_LATENCY = 0 ∧ LE_CONN_TIMEOUT = 0x002a ∧
    bt_le_conn_params_valid 0x0028 0x0038 0 0x002a = true := by
  refine ⟨by decide, rfl, rfl, rfl, rfl, by decide⟩

/-- C4: whatever the latency and timeout, the validator rejects a tuple with
`min > max`, `min < 6` or `max > 3200`; equivalently an accepted tuple has
`6 ≤ min ≤ max ≤ 3200`. -/
theorem conn_params_interval_bounds (min max latency timeout : Nat) :
    ((min > max ∨ min < 6 ∨ max > 3200) →
      bt_le_conn_params_valid min max latency timeout = false) ∧
    (bt_le_conn_params_valid min max latency timeout = true →
      6 ≤ min ∧ min ≤ max ∧ max ≤ 3200) := by
  by_cases h : min > max ∨ min < 6 ∨ max > 3200
  · have hf : bt_le_conn_params_valid min max latency timeout = false := by
      unfold bt_le_conn_params_valid
      rw [if_pos]
      simpa [or_assoc] using h
    exact ⟨fun _ => hf, fun ht => by simp [hf] at ht⟩
  · exact ⟨fun h' => absurd h' h, fun _ => by omega⟩

/-- C4, at the tuple `(5, 3200, 0, 10)`: `min` is below the floor and the
tuple is rejected. -/
theorem conn_params_interval_bounds_witness :
    (5 : Nat) < 6 ∧ bt_le_conn_params_valid 5 3200 0 10 = false :=
  ⟨by decide, (conn_params_interval_bounds 5 3200 0 10).1 (Or.inr (Or.inl (by decide)))⟩

/-- C5: whatever `min`, `max` and the latency, the validator rejects a tuple
with `timeout < 10` or `timeout > 3200`; equivalently an accepted tuple has
`10 ≤ timeout ≤ 3200`. -/
theorem conn_params_timeout_bounds (min max latency timeout : Nat) :
    ((timeout < 10 ∨ timeout > 3200) →
      bt_le_conn_params_valid min max latency timeout = false) ∧
    (bt_le_conn_params_valid min max latency timeout = true →
      10 ≤ timeout ∧ timeout ≤ 3200) := by
  by_cases h : timeout < 10 ∨ timeout > 3200
  · have hf : bt_le_conn_params_valid min max latency timeout = false := by
      unfold bt_le_conn_params_valid
      split
      · rfl
      · rw [if_pos]
        simpa using h
    exact ⟨fun _ => hf, fun ht => by simp [hf] at ht⟩
  · exact ⟨fun h' => absurd h' h, fun _ => by omega⟩

/-- C5, at the tuple `(6, 3200, 0, 9)`: the timeout is below the floor and
the tuple is rejected. -/
theorem conn_params_timeout_bounds_witness :
    (9 : Nat) < 10 ∧ bt_le_conn_params_valid 6 3200 0 9 = false :=
  ⟨by decide, (conn_params_timeout_bounds 6 3200 0 9).1 (Or.inl (by decide))⟩

/-- C6: whatever `min`, `max` and the timeout, the validator rejects a tuple
with `latency > 499`; equivalently an accepted tuple has `latency ≤ 499`. -/
theorem conn_params_latency_cap (min max latency timeout : Nat) :
    (latency > 499 →
      bt_le_conn_params_valid min max latency timeout = false) ∧
    (bt_le_conn_params_valid min max latency timeout = true →
      latency ≤ 499) := by
  by_cases h : latency > 499
  · have hf : bt_le_conn_params_valid min max latency timeout = false := by
      unfold bt_le_conn_params_valid
      split
      · rfl
      · split
        · rfl
        · simp only []
          rw [if_pos]
          simp [h]
    exact ⟨fun _ => hf, fun ht => by simp [hf] at ht⟩
  · exact ⟨fun h' => absurd h' h, fun _ => by omega⟩

/-- C6, at the tuple `(6, 3200, 500, 10)`: the latency is above the cap and
the tuple is rejected. -/
theorem conn_params_latency_cap_witness :
    (500 : Nat) > 499 ∧ bt_le_conn_params_valid 6 3200 500 10 = false :=
  ⟨by decide, (conn_params_latency_cap 6 3200 500 10).1 (by decide)⟩

/-! ## The LMP feature predicates -/

/-- C7: for every device state, `lmp_bredr_capable(dev)` is true exactly when
bit 2 (mask `0x04`) of byte 4 of the BR/EDR feature bitmap is clear; two
device states that agree on that bit get the same answer, whatever their other
bytes and bits; `features[4] = 0x04` gives false and `features[4] = 0x00`
gives true. -/
theorem lmp_bredr_capable_iff_bit2_clear (dev : bt_dev) :
    (lmp_bredr_capable dev = true ↔ (dev.features 4).testBit 2 = false) ∧
    (lmp_bredr_capable dev = true ↔ (dev.features 4 &&& 0x04) = 0) ∧
    (∀ dev2 : bt_dev,
      (dev2.features 4).testBit 2 = (dev.features 4).testBit 2 →
      lmp_bredr_capable dev2 = lmp_bredr_capable dev) ∧
    (dev.features 4 = 0x04 → lmp_bredr_capable dev = false) ∧
    (dev.features 4 = 0x00 → lmp_bredr_capable dev = true) := by
  have key : ∀ d : bt_dev,
      lmp_bredr_capable d = true ↔ (d.features 4).testBit 2 = false := by
    intro d
    rw [← and_4_eq_zero_iff]
    simp [lmp_bredr_capable, BT_LMP_NO_BREDR]
  refine ⟨key dev, ?_, ?_, ?_, ?_⟩
  · rw [and_4_eq_zero_iff]
    exact key dev
  · intro dev2 hbit
    have h1 := key dev
    have h2 := key dev2
    rw [hbit] at h2
    cases hd : lmp_bredr_capable dev <;> cases hd2 : lmp_bredr_capable dev2 <;>
      simp_all
  · intro h
    have h1 := key dev
    rw [h] at h1
    cases hd : lmp_bredr_capable dev
    · rfl
    · exact absurd (h1.mp hd) (by decide)
  · intro h
    have h1 := key dev
    rw [h] at h1
    exact h1.mpr (by decide)

/-- C7, at a device state whose feature bytes are `0x04`: BR/EDR capable is
false. -/
theorem lmp_bredr_capable_iff_bit2_clear_witness :
    (dev_with_features 0x04).features 4 = 0x04 ∧
    lmp_bredr_capable (dev_with_features 0x04) = false :=
  ⟨rfl, (lmp_bredr_capable_iff_bit2_clear (dev_with_features 0x04)).2.2.2.1 rfl⟩

/-- C8: for every device state, `lmp_le_capable(dev)` is non-zero exactly when
bit 6 (mask `0x40`) of byte 4 of the BR/EDR feature bitmap is set; two device
states that agree on that bit get the same value, whatever their other bytes
and bits; `features[4] = 0x04` gives zero, i.e. not LE capable. -/
theorem lmp_le_capable_iff_bit6_set (dev : bt_dev) :
    (lmp_le_capable dev ≠ 0 ↔ (dev.features 4).testBit 6 = true) ∧
    (lmp_le_capable dev ≠ 0 ↔ (dev.features 4 &&& 0x40) ≠ 0) ∧
    (∀ dev2 : bt_dev,
      (dev2.features 4).testBit 6 = (dev.features 4).testBit 6 →
      lmp_le_capable dev2 = lmp_le_capable dev) ∧
    (dev.features 4 = 0x04 → lmp_le_capable dev = 0) := by
  have val : ∀ d : bt_dev,
      lmp_le_capable d = ((d.features 4).testBit 6).toNat * 64 := by
    intro d
    simpa [lmp_le_capable, BT_LMP_LE] using Nat.and_two_pow (d.features 4) 6
  refine ⟨?_, ?_, ?_, ?_⟩
  · rw [← and_64_ne_zero_iff]
    simp [lmp_le_capable, BT_LMP_LE]
  · simp [lmp_le_capable, BT_LMP_LE]
  · intro dev2 hbit
    rw [val dev2, val dev, hbit]
  · intro h
    rw [val dev, h]
    decide

/-- C8, at a device state whose feature bytes are `0x04`: LE capable is
false (the macro evaluates to zero). -/
theorem lmp_le_capable_iff_bit6_set_witness :
    (dev_with_features 0x04).features 4 = 0x04 ∧
    lmp_le_capable (dev_with_features 0x04) = 0 :=
  ⟨rfl, (lmp_le_capable_iff_bit6_set (dev_with_features 0x04)).2.2.2 rfl⟩

/-! ## The LE address classifiers -/

/-- C9: for every LE address of type random whose byte 5 has top two bits
`01`, i.e. `(val[5] & 0xc0) == 0x40`, `bt_addr_le_is_rpa` returns true and
`bt_addr_le_is_identity` returns false, whatever the other bits are. The two
type codes are parameters, taken to be distinct. -/
theorem rpa_is_rpa_and_not_identity (BT_ADDR_LE_PUBLIC BT_ADDR_LE_RANDOM : Nat)
    (addr : bt_addr_le_t)
    (hcodes : BT_ADDR_LE_PUBLIC ≠ BT_ADDR_LE_RANDOM)
    (htype : addr.type = BT_ADDR_LE_RANDOM)
    (hbits : (addr.val 5 &&& 0xc0) = 0x40) :
    bt_addr_le_is_rpa BT_ADDR_LE_RANDOM addr = true ∧
    bt_addr_le_is_identity BT_ADDR_LE_PUBLIC addr = false := by
  constructor
  · simp [bt_addr_le_is_rpa, htype, hbits]
  · have hne : ¬ addr.type = BT_ADDR_LE_PUBLIC := by
      rw [htype]
      exact fun h => hcodes h.symm
    simp [bt_addr_le_is_identity, hne, hbits]

/-- C9, at type codes `0` (public) and `1` (random) and the random address
whose value bytes are all `0x7f`: it is an RPA and not an identity address. -/
theorem rpa_is_rpa_and_not_identity_witness :
    (0 : Nat) ≠ 1 ∧ (addr_le_const 1 0x7f).type = 1 ∧
    ((addr_le_const 1 0x7f).val 5 &&& 0xc0) = 0x40 ∧
    bt_addr_le_is_rpa 1 (addr_le_const 1 0x7f) = true ∧
    bt_addr_le_is_identity 0 (addr_le_const 1 0x7f) = false :=
  ⟨by decide, rfl, by decide,
    rpa_is_rpa_and_not_identity 0 1 (addr_le_const 1 0x7f) (by decide) rfl (by decide)⟩

/-- C10: for every LE address of type random whose byte 5 has top two bits
`11`, i.e. `(val[5] & 0xc0) == 0xc0`, `bt_addr_le_is_identity` returns true
and `bt_addr_le_is_rpa` returns false. -/
theorem static_is_identity_and_not_rpa (BT_ADDR_LE_PUBLIC BT_ADDR_LE_RANDOM : Nat)
    (addr : bt_addr_le_t)
    (htype : addr.type = BT_ADDR_LE_RANDOM)
    (hbits : (addr.val 5 &&& 0xc0) = 0xc0) :
    bt_addr_le_is_identity BT_ADDR_LE_PUBLIC addr = true ∧
    bt_addr_le_is_rpa BT_ADDR_LE_RANDOM addr = false := by
  constructor
  · simp [bt_addr_le_is_identity, hbits]
  · simp [bt_addr_le_is_rpa, htype, hbits]

/-- C10, at type codes `0` (public) and `1` (random) and the random address
whose value bytes are all `0xc3`: it is an identity address and not an RPA. -/
theorem static_is_identity_and_not_rpa_witness :
    (addr_le_const 1 0xc3).type = 1 ∧
    ((addr_le_const 1 0xc3).val 5 &&& 0xc0) = 0xc0 ∧
    bt_addr_le_is_identity 0 (addr_le_const 1 0xc3) = true ∧
    bt_addr_le_is_rpa 1 (addr_le_const 1 0xc3) = false :=
  ⟨rfl, by decide,
    static_is_identity_and_not_rpa 0 1 (addr_le_const 1 0xc3) rfl (by decide)⟩

/-! ## More on the LE address classifiers -/

/-- C11: for every LE address of type public, whatever its six value bytes
(also when byte 5 has top two bits `01`), `bt_addr_le_is_identity` returns
true. -/
theorem public_is_identity (BT_ADDR_LE_PUBLIC : Nat) (addr : bt_addr_le_t)
    (htype : addr.type = BT_ADDR_LE_PUBLIC) :
    bt_addr_le_is_identity BT_ADDR_LE_PUBLIC addr = true := by
  simp [bt_addr_le_is_identity, htype]

/-- C11, at type code `0` (public) and the public address whose value bytes
are all `0x40`, so that byte 5 has top two bits `01`. -/
theorem public_is_identity_witness :
    (addr_le_const 0 0x40).type = 0 ∧
    ((addr_le_const 0 0x40).val 5 &&& 0xc0) = 0x40 ∧
    bt_addr_le_is_identity 0 (addr_le_const 0 0x40) = true :=
  ⟨rfl, by decide, public_is_identity 0 (addr_le_const 0 0x40) rfl⟩

/-- C12: `bt_addr_le_is_identity` never looks at the type once it is not
public: an address whose value bytes are all `0xc0` is reported as an identity
address for every type byte, in particular for the type byte `2` when the
public and random type codes are `0` and `1`. -/
theorem identity_ignores_random_type :
    (∀ BT_ADDR_LE_PUBLIC t : Nat,
      bt_addr_le_is_identity BT_ADDR_LE_PUBLIC (addr_le_const t 0xc0) = true) ∧
    (addr_le_const 2 0xc0).type ≠ 0 ∧ (addr_le_const 2 0xc0).type ≠ 1 ∧
    bt_addr_le_is_identity 0 (addr_le_const 2 0xc0) = true ∧
    bt_addr_le_is_rpa 1 (addr_le_const 2 0x40) = false := by
  refine ⟨?_, by decide, by decide, by decide, by decide⟩
  intro p t
  have hbits : ((addr_le_const t 0xc0).val 5 &&& 0xc0) = 0xc0 := by
    show ((0xc0 : Nat) &&& 0xc0) = 0xc0
    decide
  simp [bt_addr_le_is_identity, hbits]

/-- C20: when the public and random type codes differ, no LE address is both
an RPA and an identity address; a public address is never an RPA; a random
address whose byte 5 has top two bits `00` or `10` is neither. -/
theorem rpa_identity_exclusive (BT_ADDR_LE_PUBLIC BT_ADDR_LE_RANDOM : Nat)
    (addr : bt_addr_le_t) (hcodes : BT_ADDR_LE_PUBLIC ≠ BT_ADDR_LE_RANDOM) :
    ¬ (bt_addr_le_is_rpa BT_ADDR_LE_RANDOM addr = true ∧
        bt_addr_le_is_identity BT_ADDR_LE_PUBLIC addr = true) ∧
    (addr.type = BT_ADDR_LE_PUBLIC →
      bt_addr_le_is_rpa BT_ADDR_LE_RANDOM addr = false) ∧
    (addr.type = BT_ADDR_LE_RANDOM →
      ((addr.val 5 &&& 0xc0) = 0x00 ∨ (addr.val 5 &&& 0xc0) = 0x80) →
      bt_addr_le_is_rpa BT_ADDR_LE_RANDOM addr = false ∧
      bt_addr_le_is_identity BT_ADDR_LE_PUBLIC addr = false) := by
  refine ⟨?_, ?_, ?_⟩
  · rintro ⟨hr, hi⟩
    unfold bt_addr_le_is_rpa at hr
    unfold bt_addr_le_is_identity at hi
    split at hr
    · exact absurd hr (by decide)
    · rename_i ht
      have ht2 : addr.type = BT_ADDR_LE_RANDOM := not_not.mp ht
      split at hr
      · rename_i hb
        have hne : ¬ addr.type = BT_ADDR_LE_PUBLIC := by
          rw [ht2]
          exact fun h => hcodes h.symm
        rw [if_neg hne, hb] at hi
        exact absurd hi (by decide)
      · exact absurd hr (by decide)
  · intro ht
    have hne : addr.type ≠ BT_ADDR_LE_RANDOM := by
      rw [ht]
      exact hcodes
    simp [bt_addr_le_is_rpa, hne]
  · intro ht hb
    have hne : ¬ addr.type = BT_ADDR_LE_PUBLIC := by
      rw [ht]
      exact fun h => hcodes h.symm
    rcases hb with hb | hb <;>
      simp [bt_addr_le_is_rpa, bt_addr_le_is_identity, hne, hb]

/-- C20, at type codes `0` (public) and `1` (random) and the random address
whose value bytes are all `0x80` (top two bits `10`): neither an RPA nor an
identity address. -/
theorem rpa_identity_exclusive_witness :
    (0 : Nat) ≠ 1 ∧ (addr_le_const 1 0x80).type = 1 ∧
    ((addr_le_const 1 0x80).val 5 &&& 0xc0) = 0x80 ∧
    bt_addr_le_is_rpa 1 (addr_le_const 1 0x80) = false ∧
    bt_addr_le_is_identity 0 (addr_le_const 1 0x80) = false :=
  ⟨by decide, rfl, by decide,
    (rpa_identity_exclusive 0 1 (addr_le_const 1 0x80) (by decide)).2.2 rfl
      (Or.inr (by decide))⟩

/-! ## The arithmetic of the validator -/

/-- On natural operands the truncating quotient is the natural quotient. -/
theorem tdiv_natCast (max timeout : Nat) :
    Int.tdiv ((timeout : Int) * 4) (max : Int) = ((timeout * 4 / max : Nat) : Int) := by
  have h := Int.ofNat_tdiv (timeout * 4) max
  rw [h]
  push_cast
  rfl

/-- When the quotient is zero the stored `max_latency` is `65535`. -/
theorem max_latency_of_wrap (max timeout : Nat) (h : timeout * 4 < max) :
    max_latency_of max timeout = 65535 := by
  unfold max_latency_of to_uint16
  rw [tdiv_natCast, Nat.div_eq_of_lt h]
  decide

/-- When the quotient is positive the stored `max_latency` is the quotient
minus one. -/
theorem max_latency_of_quot (max timeout : Nat) (hmax : 0 < max)
    (h : max ≤ timeout * 4) (ht : timeout ≤ 3200) :
    max_latency_of max timeout = timeout * 4 / max - 1 := by
  unfold max_latency_of to_uint16
  rw [tdiv_natCast]
  have h1 : 1 ≤ timeout * 4 / max := (Nat.le_div_iff_mul_le hmax).2 (by omega)
  have h2 : timeout * 4 / max ≤ timeout * 4 := Nat.div_le_self _ _
  omega

/-- The validator accepts exactly when none of its three tests fires. -/
theorem bt_le_conn_params_valid_iff (min max latency timeout : Nat) :
    bt_le_conn_params_valid min max latency timeout = true ↔
      (6 ≤ min ∧ min ≤ max ∧ max ≤ 3200) ∧ (10 ≤ timeout ∧ timeout ≤ 3200) ∧
      latency ≤ 499 ∧ latency ≤ max_latency_of max timeout := by
  unfold bt_le_conn_params_valid
  by_cases h1 : min > max ∨ min < 6 ∨ max > 3200
  · rw [if_pos (by simpa [or_assoc] using h1)]
    constructor
    · intro h
      exact absurd h (by decide)
    · intro h
      omega
  · rw [if_neg (by simpa [or_assoc] using h1)]
    by_cases h2 : timeout < 10 ∨ timeout > 3200
    · rw [if_pos (by simpa using h2)]
      constructor
      · intro h
        exact absurd h (by decide)
      · intro h
        omega
    · rw [if_neg (by simpa using h2)]
      simp only []
      by_cases h3 : latency > 499 ∨ latency > max_latency_of max timeout
      · rw [if_pos (by simpa using h3)]
        constructor
        · intro h
          exact absurd h (by decide)
        · intro h
          omega
      · rw [if_neg (by simpa using h3)]
        constructor
        · intro _
          omega
        · intro _
          rfl

/-- C19: acceptance is downward closed in the latency: a tuple accepted with
latency `l1` is accepted with every latency `l2 ≤ l1`, in particular with
latency `0`. -/
theorem conn_params_valid_latency_downward (min max l1 l2 timeout : Nat)
    (hle : l2 ≤ l1)
    (h : bt_le_conn_params_valid min max l1 timeout = true) :
    bt_le_conn_params_valid min max l2 timeout = true ∧
    bt_le_conn_params_valid min max 0 timeout = true := by
  rw [bt_le_conn_params_valid_iff] at h
  obtain ⟨hi, ht, hl, hm⟩ := h
  constructor
  · rw [bt_le_conn_params_valid_iff]
    exact ⟨hi, ht, by omega, by omega⟩
  · rw [bt_le_conn_params_valid_iff]
    exact ⟨hi, ht, by omega, by omega⟩

/-- C19, at the default intervals and timeout: accepted with latency `2`,
hence with latency `1` and with latency `0`. -/
theorem conn_params_valid_latency_downward_witness :
    (1 : Nat) ≤ 2 ∧ bt_le_conn_params_valid 0x28 0x38 2 0x2a = true ∧
    bt_le_conn_params_valid 0x28 0x38 1 0x2a = true ∧
    bt_le_conn_params_valid 0x28 0x38 0 0x2a = true :=
  ⟨by decide, by decide,
    conn_params_valid_latency_downward 0x28 0x38 2 1 0x2a (by decide) (by decide)⟩

/-- C18: for inputs that pass the interval and timeout tests the result is
`latency ≤ 499 and latency ≤ ((timeout * 4 / max) - 1) mod 65536`. When
`timeout * 4 < max` the quotient is `0`, the stored `max_latency` is `65535`
and the tuple is accepted exactly when `latency ≤ 499`; when
`timeout * 4 ≥ max` it is accepted exactly when
`(latency + 1) * max ≤ timeout * 4` and `latency ≤ 499`. -/
theorem conn_params_valid_uint16_store (min max latency timeout : Nat)
    (hmin : 6 ≤ min) (hle : min ≤ max) (hmax : max ≤ 3200)
    (ht1 : 10 ≤ timeout) (ht2 : timeout ≤ 3200) :
    bt_le_conn_params_valid min max latency timeout =
      (decide (latency ≤ 499) &&
        decide (latency ≤ ((max_latency_int max timeout) % 65536).toNat)) ∧
    (timeout * 4 < max →
      timeout * 4 / max = 0 ∧ max_latency_of max timeout = 65535 ∧
      (bt_le_conn_params_valid min max latency timeout = true ↔ latency ≤ 499)) ∧
    (max ≤ timeout * 4 →
      (bt_le_conn_params_valid min max latency timeout = true ↔
        (latency + 1) * max ≤ timeout * 4 ∧ latency ≤ 499)) := by
  have hiff := bt_le_conn_params_valid_iff min max latency timeout
  refine ⟨?_, ?_, ?_⟩
  · have hstore : ((max_latency_int max timeout) % 65536).toNat =
        max_latency_of max timeout := rfl
    rw [hstore]
    cases hv : bt_le_conn_params_valid min max latency timeout
    · by_contra hne
      have hacc : latency ≤ 499 ∧ latency ≤ max_latency_of max timeout := by
        simpa using (Ne.symm hne)
      have := hiff.mpr ⟨⟨hmin, hle, hmax⟩, ⟨ht1, ht2⟩, hacc.1, hacc.2⟩
      rw [hv] at this
      exact absurd this (by decide)
    · have hacc := hiff.mp hv
      simp [hacc.2.2.1, hacc.2.2.2]
  · intro hlt
    have hw := max_latency_of_wrap max timeout hlt
    refine ⟨Nat.div_eq_of_lt hlt, hw, ?_⟩
    rw [hiff, hw]
    constructor
    · intro h
      exact h.2.2.1
    · intro h
      exact ⟨⟨hmin, hle, hmax⟩, ⟨ht1, ht2⟩, h, by omega⟩
  · intro hge
    have hpos : 0 < max := by omega
    have hq := max_latency_of_quot max timeout hpos hge ht2
    have hone : 1 ≤ timeout * 4 / max := (Nat.le_div_iff_mul_le hpos).2 (by omega)
    have hdiv : latency + 1 ≤ timeout * 4 / max ↔ (latency + 1) * max ≤ timeout * 4 :=
      Nat.le_div_iff_mul_le hpos
    rw [hiff, hq]
    constructor
    · intro h
      exact ⟨hdiv.mp (by omega), h.2.2.1⟩
    · intro h
      have := hdiv.mpr h.1
      exact ⟨⟨hmin, hle, hmax⟩, ⟨ht1, ht2⟩, h.2, by omega⟩

/-- C18, at the tuple `(6, 3200, 499, 10)`: `10 * 4 < 3200`, the stored
`max_latency` is `65535` and the tuple is accepted. -/
theorem conn_params_valid_uint16_store_witness :
    (10 * 4 < 3200) ∧ max_latency_of 3200 10 = 65535 ∧
    bt_le_conn_params_valid 6 3200 499 10 = true :=
  have h := (conn_params_valid_uint16_store 6 3200 499 10 (by decide) (by decide)
    (by decide) (by decide) (by decide)).2.1 (by decide)
  ⟨by decide, h.2.1, h.2.2.mpr (by decide)⟩

/-- C15: the validator has no error path. With division by zero and 16-bit
overflow of `timeout * 4` made explicit failures, every input still yields a
Boolean, the one `bt_le_conn_params_valid` returns; whenever control reaches
the division its operands are `timeout * 4 ≤ 12800` and `max ≥ 6`. -/
theorem conn_params_valid_total (min max latency timeout : Nat) :
    bt_le_conn_params_valid_checked min max latency timeout =
      some (bt_le_conn_params_valid min max latency timeout) ∧
    (∃ b : Bool, bt_le_conn_params_valid_checked min max latency timeout = some b) ∧
    (∀ p d : Nat, division_operands min max timeout = some (p, d) →
      p = timeout * 4 ∧ d = max ∧ 6 ≤ d ∧ p ≤ 12800 ∧ p < 65536) := by
  have hmain : bt_le_conn_params_valid_checked min max latency timeout =
      some (bt_le_conn_params_valid min max latency timeout) := by
    unfold bt_le_conn_params_valid_checked bt_le_conn_params_valid
    by_cases h1 : (decide (min > max) || decide (min < 6) || decide (max > 3200)) = true
    · rw [if_pos h1, if_pos h1]
    · rw [if_neg h1, if_neg h1]
      by_cases h2 : (decide (timeout < 10) || decide (timeout > 3200)) = true
      · rw [if_pos h2, if_pos h2]
      · rw [if_neg h2, if_neg h2]
        have h3 : ¬ timeout * 4 ≥ 65536 := by
          simp at h2
          omega
        have h4 : ¬ max = 0 := by
          simp at h1
          omega
        rw [if_neg h3, if_neg h4]
        by_cases h5 : (decide (latency > 499) ||
            decide (latency > max_latency_of max timeout)) = true
        · simp only []
          rw [if_pos h5, if_pos h5]
        · simp only []
          rw [if_neg h5, if_neg h5]
  refine ⟨hmain, ⟨_, hmain⟩, ?_⟩
  intro p d hd
  unfold division_operands at hd
  by_cases h1 : min > max ∨ min < 6 ∨ max > 3200
  · rw [if_pos (by simpa [or_assoc] using h1)] at hd
    exact absurd hd (by simp)
  · rw [if_neg (by simpa [or_assoc] using h1)] at hd
    by_cases h2 : timeout < 10 ∨ timeout > 3200
    · rw [if_pos (by simpa using h2)] at hd
      exact absurd hd (by simp)
    · rw [if_neg (by simpa using h2)] at hd
      have hp : timeout * 4 = p := by
        have := congrArg Prod.fst (Option.some.inj hd)
        simpa using this
      have hq : max = d := by
        have := congrArg Prod.snd (Option.some.inj hd)
        simpa using this
      omega

/-- C15, at the tuple `(6, 3200, 0, 10)`: the division is reached with
operands `40` and `3200`. -/
theorem conn_params_valid_total_witness :
    division_operands 6 3200 10 = some (40, 3200) ∧
    bt_le_conn_params_valid_checked 6 3200 0 10 = some true ∧
    (6 ≤ 3200 ∧ 40 ≤ 12800) :=
  have h := (conn_params_valid_total 6 3200 0 10).2.2 40 3200 (by decide)
  ⟨by decide, by decide, h.2.2.1, h.2.2.2.1⟩

/-- C17: for every timeout and every `max ≥ 1` the truncating integer quotient
`timeout * 4 / max` is the floor of the exact rational
`(timeout * 10) / (max * 1.25 * 2)`, and `(timeout * 4 / max) - 1` is the
floor of `((timeout * 10) / (max * 1.25 * 2)) - 1`. -/
theorem max_latency_int_eq_floor (max timeout : Nat) (hmax : 1 ≤ max) :
    Int.tdiv ((timeout : Int) * 4) (max : Int) =
      ⌊((timeout : ℚ) * 10) / ((max : ℚ) * 1.25 * 2)⌋ ∧
    max_latency_int max timeout = ⌊max_latency_exact max timeout⌋ := by
  have hpos : (0 : ℚ) < (max : ℚ) := by exact_mod_cast hmax
  have hq : ((timeout : ℚ) * 10) / ((max : ℚ) * 1.25 * 2) =
      (((timeout * 4 : Nat) : Int) : ℚ) / ((max : Nat) : ℚ) := by
    push_cast
    field_simp
    ring
  have hfloor : ⌊((timeout : ℚ) * 10) / ((max : ℚ) * 1.25 * 2)⌋ =
      ((timeout * 4 / max : Nat) : Int) := by
    rw [hq, Rat.floor_intCast_div_natCast]
    exact (Int.natCast_div _ _).symm
  have hint : max_latency_int max timeout = ((timeout * 4 / max : Nat) : Int) - 1 := by
    unfold max_latency_int
    rw [tdiv_natCast]
  constructor
  · rw [hfloor, tdiv_natCast]
  · unfold max_latency_exact
    rw [Int.floor_sub_one, hfloor, hint]

/-- C17, at the default parameters `max = 0x38`, `timeout = 0x2a`: the exact
value is `420 / 140 - 1 = 2` and the integer expression is `168 / 56 - 1 = 2`. -/
theorem max_latency_int_eq_floor_witness :
    (1 : Nat) ≤ 0x38 ∧ max_latency_int 0x38 0x2a = 2 ∧
    ⌊max_latency_exact 0x38 0x2a⌋ = 2 :=
  have h := (max_latency_int_eq_floor 0x38 0x2a (by decide)).2
  have h2 : max_latency_int 0x38 0x2a = 2 := by decide
  ⟨by decide, h2, by rw [← h]; exact h2⟩

/-! ## Address comparison and copy -/

/-- `memcmp` returns zero exactly when the first `n` bytes agree. -/
theorem memcmp_eq_zero_iff (n : Nat) : ∀ xs ys : List Nat,
    n ≤ xs.length → n ≤ ys.length →
    (memcmp xs ys n = 0 ↔ xs.take n = ys.take n) := by
  induction n with
  | zero =>
    intro xs ys _ _
    simp [memcmp]
  | succ k ih =>
    intro xs ys hx hy
    cases xs with
    | nil => simp at hx
    | cons a as =>
      cases ys with
      | nil => simp at hy
      | cons b bs =>
        have hx2 : k ≤ as.length := by simpa using hx
        have hy2 : k ≤ bs.length := by simpa using hy
        by_cases hab : a = b
        · subst hab
          simp [memcmp, ih as bs hx2 hy2]
        · have hne : (a : Int) - (b : Int) ≠ 0 := by omega
          simp [memcmp, hab, hne]

/-- A statement about all six indices is a statement about each of them. -/
theorem forall_fin6 (P : Fin 6 → Prop) :
    (∀ i : Fin 6, P i) ↔ P 0 ∧ P 1 ∧ P 2 ∧ P 3 ∧ P 4 ∧ P 5 := by
  constructor
  · intro h
    exact ⟨h 0, h 1, h 2, h 3, h 4, h 5⟩
  · rintro ⟨h0, h1, h2, h3, h4, h5⟩ i
    fin_cases i
    · exact h0
    · exact h1
    · exact h2
    · exact h3
    · exact h4
    · exact h5

/-- `bt_addr_cmp` returns zero exactly on bytewise equal addresses. -/
theorem bt_addr_cmp_eq_zero_iff (a b : bt_addr_t) :
    bt_addr_cmp a b = 0 ↔ ∀ i : Fin 6, a.val i = b.val i := by
  unfold bt_addr_cmp
  rw [memcmp_eq_zero_iff 6 _ _ (by simp [bt_addr_bytes]) (by simp [bt_addr_bytes]),
    forall_fin6]
  simp [bt_addr_bytes]

/-- `bt_addr_le_cmp` returns zero exactly on addresses with equal type and
bytewise equal values. -/
theorem bt_addr_le_cmp_eq_zero_iff (a b : bt_addr_le_t) :
    bt_addr_le_cmp a b = 0 ↔ a.type = b.type ∧ ∀ i : Fin 6, a.val i = b.val i := by
  unfold bt_addr_le_cmp
  rw [memcmp_eq_zero_iff 7 _ _ (by simp [bt_addr_le_bytes]) (by simp [bt_addr_le_bytes]),
    forall_fin6]
  simp [bt_addr_le_bytes]

/-- C13: address comparison is raw byte equality. `bt_addr_cmp(a, b) == 0`
exactly when the six bytes agree index by index; `bt_addr_le_cmp(x, y) == 0`
exactly when the type byte and the six value bytes agree index by index, so
two LE addresses with the same value bytes and different types compare
unequal. -/
theorem addr_cmp_is_byte_equality (a b : bt_addr_t) (x y : bt_addr_le_t) :
    (bt_addr_cmp a b = 0 ↔ ∀ i : Fin 6, a.val i = b.val i) ∧
    (bt_addr_le_cmp x y = 0 ↔ x.type = y.type ∧ ∀ i : Fin 6, x.val i = y.val i) ∧
    ((∀ i : Fin 6, x.val i = y.val i) → x.type ≠ y.type → bt_addr_le_cmp x y ≠ 0) := by
  refine ⟨bt_addr_cmp_eq_zero_iff a b, bt_addr_le_cmp_eq_zero_iff x y, ?_⟩
  intro _ ht h
  exact ht ((bt_addr_le_cmp_eq_zero_iff x y).mp h).1

/-- C13, at two LE addresses with the same value bytes `0x11` and the types
`0` and `1`: they compare unequal. -/
theorem addr_cmp_is_byte_equality_witness :
    (addr_le_const 0 0x11).type ≠ (addr_le_const 1 0x11).type ∧
    bt_addr_le_cmp (addr_le_const 0 0x11) (addr_le_const 1 0x11) ≠ 0 :=
  ⟨by decide,
    (addr_cmp_is_byte_equality (addr_const 0) (addr_const 0)
      (addr_le_const 0 0x11) (addr_le_const 1 0x11)).2.2 (fun _ => rfl) (by decide)⟩

/-- C14: copy followed by compare is a round trip. After
`bt_addr_copy(dst, src)` the destination holds the bytes of `src`, `src` is
unchanged and `bt_addr_cmp(dst, src) == 0`, whatever `dst` held before; after
`bt_addr_le_copy(dst, src)` the type and the six value bytes of the
destination are those of `src` and `bt_addr_le_cmp(dst, src) == 0`. -/
theorem addr_copy_then_cmp (dst src : bt_addr_t) (ldst lsrc : bt_addr_le_t) :
    ((∀ i : Fin 6, (bt_addr_copy dst src).1.val i = src.val i) ∧
      (bt_addr_copy dst src).2 = src ∧
      bt_addr_cmp (bt_addr_copy dst src).1 (bt_addr_copy dst src).2 = 0) ∧
    ((bt_addr_le_copy ldst lsrc).1.type = lsrc.type ∧
      (∀ i : Fin 6, (bt_addr_le_copy ldst lsrc).1.val i = lsrc.val i) ∧
      (bt_addr_le_copy ldst lsrc).2 = lsrc ∧
      bt_addr_le_cmp (bt_addr_le_copy ldst lsrc).1 (bt_addr_le_copy ldst lsrc).2 = 0) := by
  have h1 : ∀ i : Fin 6, (bt_addr_copy dst src).1.val i = src.val i := by
    rw [forall_fin6]
    exact ⟨rfl, rfl, rfl, rfl, rfl, rfl⟩
  have h2 : ∀ i : Fin 6, (bt_addr_le_copy ldst lsrc).1.val i = lsrc.val i := by
    rw [forall_fin6]
    exact ⟨rfl, rfl, rfl, rfl, rfl, rfl⟩
  have h3 : (bt_addr_le_copy ldst lsrc).1.type = lsrc.type := rfl
  refine ⟨⟨h1, rfl, ?_⟩, h3, h2, rfl, ?_⟩
  · exact (bt_addr_cmp_eq_zero_iff _ _).mpr h1
  · exact (bt_addr_le_cmp_eq_zero_iff _ _).mpr ⟨h3, h2⟩

end HciCore
